import Mathlib

/-!
Verification development for the ChatGPT chat-workspace repository.

The repository's core is embedded shallowly: the hashing module
(normalizeMessage, coerceToArray, canonicalizeChat, sha256Hex, hashChat),
the turn extractor (collectTurns), the localStorage-backed annotation
store (saveIndent, saveComment, saveOutlineItem, resetAllOutlineItems),
the URL-parameter sync controller (handleUrlParameters) and the PHP
share endpoint (sharePhp).

JavaScript platform primitives that the source calls are modelled
explicitly and documented at their definitions: String coercion,
string-to-number coercion (exact rationals instead of binary64),
Array.prototype.sort with a comparator (as a stable sort),
String.prototype.localeCompare (as code-point order), JSON.stringify
(for the exact object shapes the source serializes), TextEncoder
(UTF-8) and crypto.subtle SHA-256 (implemented bit-for-bit).
-/

/-- Character class of the JavaScript whitespace set, as matched by the
regular-expression class backslash-s and by String.prototype.trim. -/
def jsIsSpace (c : Char) : Bool :=
  c.toNat = 32 || c.toNat = 9 || c.toNat = 10 || c.toNat = 13 ||
  c.toNat = 11 || c.toNat = 12 || c.toNat = 0xA0 || c.toNat = 0x1680 ||
  (0x2000 ≤ c.toNat && c.toNat ≤ 0x200A) || c.toNat = 0x2028 ||
  c.toNat = 0x2029 || c.toNat = 0x202F || c.toNat = 0x205F ||
  c.toNat = 0x3000 || c.toNat = 0xFEFF

/-- Model of String.prototype.trim: drop JavaScript whitespace from both
ends of the string. -/
def jsTrim (s : String) : String :=
  String.mk (((s.data.dropWhile jsIsSpace).reverse.dropWhile jsIsSpace).reverse)

/-- Replace every maximal run of characters satisfying p by the single
character rep.  The flag inRun records whether the previous character was
part of a run. -/
def collapseRunsGo (p : Char → Bool) (rep : Char) : Bool → List Char → List Char
  | _, [] => []
  | inRun, c :: cs =>
    if p c then
      (if inRun then [] else [rep]) ++ collapseRunsGo p rep true cs
    else
      c :: collapseRunsGo p rep false cs

/-- Model of s.replace(pattern+, rep) for a one-character class pattern:
every maximal run of matching characters becomes the single character rep. -/
def collapseRuns (p : Char → Bool) (rep : Char) (s : String) : String :=
  String.mk (collapseRunsGo p rep false s.data)

/-- Model of .replace over the regex class backslash-s one-or-more with a
single space: runs of JavaScript whitespace collapse to one space. -/
def collapseWs (s : String) : String := collapseRuns jsIsSpace ' ' s

/-- Character class of JavaScript whitespace other than the newline:
the regex class excluding non-whitespace and newline. -/
def jsIsSpaceNotNl (c : Char) : Bool := jsIsSpace c && c ≠ '\n'

/-- Model of content.replace of runs of non-newline whitespace with one
space, keeping newlines (d-render-chat.js line 38). -/
def collapseNonNlWs (s : String) : String := collapseRuns jsIsSpaceNotNl ' ' s

/-- Emit a run of pending newline characters: three or more consecutive
newlines are reduced to exactly two. -/
def emitNl (pending : Nat) : List Char := List.replicate (min pending 2) '\n'

/-- Worker for collapseNewlines, carrying the number of newline characters
seen so far in the current run. -/
def collapseNlGo (pending : Nat) : List Char → List Char
  | [] => emitNl pending
  | c :: cs =>
    if c = '\n' then collapseNlGo (pending + 1) cs
    else emitNl pending ++ c :: collapseNlGo 0 cs

/-- Model of content.replace of three-or-more newlines with exactly two
(d-render-chat.js line 40). -/
def collapseNewlines (s : String) : String := String.mk (collapseNlGo 0 s.data)

/-- Model of content.replace of the literal two-character backslash-n
escape sequence by a real newline (d-render-chat.js line 36): a global,
left-to-right, non-overlapping replacement. -/
def replaceLitNewline : List Char → List Char
  | '\\' :: 'n' :: cs => '\n' :: replaceLitNewline cs
  | c :: cs => c :: replaceLitNewline cs
  | [] => []

/-- String wrapper for replaceLitNewline. -/
def replaceLitNewlineStr (s : String) : String := String.mk (replaceLitNewline s.data)

/-- Dynamic JavaScript values, as far as the hashing and persistence core
manipulates them.  Number values are restricted to integers, which covers
every number the repository stores (turn indices, indent levels, the
version constant); fractional numbers enter the core only as object-key
strings and are handled by the string-to-number model below. -/
inductive JSValue where
  | null
  | undefined
  | bool (b : Bool)
  | num (n : Int)
  | str (s : String)
  | arr (elems : List JSValue)
  | obj (fields : List (String × JSValue))

/-- Truthiness of a JavaScript value, as tested by an if condition or the
logical-or operator. -/
def truthy : JSValue → Bool
  | .null => false
  | .undefined => false
  | .bool b => b
  | .num n => n ≠ 0
  | .str s => s ≠ ""
  | .arr _ => true
  | .obj _ => true

/-- Model of the JavaScript logical-or: the left operand when truthy,
otherwise the right operand. -/
def jsOr (a b : JSValue) : JSValue := if truthy a then a else b

mutual

/-- Model of JavaScript String(v) coercion on the embedded value space.
Arrays stringify by joining their elements with commas, where null and
undefined elements contribute the empty string; plain objects stringify
to the bracketed object Object text. -/
def jsToString : JSValue → String
  | .null => "null"
  | .undefined => "undefined"
  | .bool b => if b then "true" else "false"
  | .num n => toString n
  | .str s => s
  | .arr xs => String.intercalate "," (jsToStringElems xs)
  | .obj _ => "[object Object]"

/-- Element-wise stringification used by Array.prototype.join: null and
undefined become empty strings. -/
def jsToStringElems : List JSValue → List String
  | [] => []
  | .null :: vs => "" :: jsToStringElems vs
  | .undefined :: vs => "" :: jsToStringElems vs
  | v :: vs => jsToString v :: jsToStringElems vs

end

/-- Model of optional-chaining property access m?.k: property lookup on a
plain object (first binding of the key), undefined on every other value,
including null and undefined themselves. -/
def jsGetOpt (v : JSValue) (k : String) : JSValue :=
  match v with
  | .obj fields =>
    match fields.find? (fun p => p.1 = k) with
    | some p => p.2
    | none => .undefined
  | _ => .undefined

/-- Model of the JavaScript in operator restricted to own properties of a
plain object, which is all the source relies on. -/
def jsHasKey (fields : List (String × JSValue)) (k : String) : Bool :=
  fields.any (fun p => p.1 = k)

/-- Finite JavaScript number value, carried as an exact scaled decimal:
the value is mant times ten to the exp.  The representation is not
normalized; comparisons scale to a common exponent.  Binary64 rounding is
not modelled, which is faithful on every string the repository's key
comparator classifies whose decimal value binary64 represents without
loss (at most fifteen significant digits). -/
structure DecNum where
  mant : Int
  exp : Int
deriving DecidableEq, Repr

/-- Rational value denoted by a scaled decimal. -/
def decValue (d : DecNum) : ℚ := (d.mant : ℚ) * (10 : ℚ) ^ d.exp

/-- Comparison of two scaled decimals by scaling to the smaller exponent:
negative, zero or positive as the first is less than, equal to or greater
than the second. -/
def decCompare (x y : DecNum) : Int :=
  let d := x.exp - y.exp
  let a := if 0 ≤ d then x.mant * 10 ^ d.toNat else x.mant
  let b := if 0 ≤ d then y.mant else y.mant * 10 ^ (-d).toNat
  if a < b then -1 else if b < a then 1 else 0

/-- JavaScript number values as needed by the key comparator:
not-a-number, the two infinities, and finite scaled-decimal values. -/
inductive JsNum where
  | nan
  | posInf
  | negInf
  | val (d : DecNum)
deriving DecidableEq, Repr

/-- Numeric value of a decimal digit list, most significant first. -/
def digitsToNat (ds : List Char) : Nat :=
  ds.foldl (fun n c => n * 10 + (c.toNat - 48)) 0

/-- Numeric value of a hexadecimal digit list, most significant first. -/
def hexDigitsToNat (ds : List Char) : Nat :=
  ds.foldl (fun n c =>
    n * 16 +
      (if c.isDigit then c.toNat - 48
       else if 'a' ≤ c ∧ c ≤ 'f' then c.toNat - 87
       else c.toNat - 55)) 0

/-- Check for a hexadecimal digit. -/
def isHexDigit (c : Char) : Bool :=
  c.isDigit || ('a' ≤ c && c ≤ 'f') || ('A' ≤ c && c ≤ 'F')

/-- Parse the exponent part of a decimal literal (the part after e or E):
an optional sign followed by at least one digit, which must consume the
whole remaining input. -/
def parseExponent (cs : List Char) : Option Int :=
  match cs with
  | '+' :: ds => if ds ≠ [] ∧ ds.all Char.isDigit then some (digitsToNat ds) else none
  | '-' :: ds => if ds ≠ [] ∧ ds.all Char.isDigit then some (-(digitsToNat ds : Int)) else none
  | ds => if ds ≠ [] ∧ ds.all Char.isDigit then some (digitsToNat ds) else none

/-- Parse an unsigned ECMAScript StrUnsignedDecimalLiteral other than
Infinity: decimal digits with optional fraction and optional exponent.
Returns the unsigned scaled-decimal value, or none when the input is not
fully consumed by such a literal. -/
def parseUnsignedDec (cs : List Char) : Option DecNum :=
  let intPart := cs.takeWhile Char.isDigit
  let rest1 := cs.dropWhile Char.isDigit
  let (fracPart, rest2) :=
    match rest1 with
    | '.' :: cs' => (cs'.takeWhile Char.isDigit, cs'.dropWhile Char.isDigit)
    | _ => ([], rest1)
  if intPart = [] ∧ fracPart = [] then none
  else
    let mant : Int := digitsToNat (intPart ++ fracPart)
    let fracExp : Int := -(fracPart.length : Int)
    match rest2 with
    | [] => some ⟨mant, fracExp⟩
    | 'e' :: es => (parseExponent es).map (fun e => ⟨mant, fracExp + e⟩)
    | 'E' :: es => (parseExponent es).map (fun e => ⟨mant, fracExp + e⟩)
    | _ => none

/-- Parse an ECMAScript StrNumericLiteral: a signed decimal literal or
Infinity, or an unsigned non-decimal (hex, octal, binary) integer
literal.  Returns a JsNum; failure to parse is NaN. -/
def parseNumericLiteral (cs : List Char) : JsNum :=
  match cs with
  | '0' :: 'x' :: ds =>
    if ds ≠ [] ∧ ds.all isHexDigit then .val ⟨hexDigitsToNat ds, 0⟩ else .nan
  | '0' :: 'X' :: ds =>
    if ds ≠ [] ∧ ds.all isHexDigit then .val ⟨hexDigitsToNat ds, 0⟩ else .nan
  | '0' :: 'o' :: ds =>
    if ds ≠ [] ∧ ds.all (fun c => '0' ≤ c ∧ c ≤ '7') then
      .val ⟨(ds.foldl (fun n c => n * 8 + (c.toNat - 48)) 0 : Nat), 0⟩ else .nan
  | '0' :: 'O' :: ds =>
    if ds ≠ [] ∧ ds.all (fun c => '0' ≤ c ∧ c ≤ '7') then
      .val ⟨(ds.foldl (fun n c => n * 8 + (c.toNat - 48)) 0 : Nat), 0⟩ else .nan
  | '0' :: 'b' :: ds =>
    if ds ≠ [] ∧ ds.all (fun c => c = '0' ∨ c = '1') then
      .val ⟨(ds.foldl (fun n c => n * 2 + (c.toNat - 48)) 0 : Nat), 0⟩ else .nan
  | '0' :: 'B' :: ds =>
    if ds ≠ [] ∧ ds.all (fun c => c = '0' ∨ c = '1') then
      .val ⟨(ds.foldl (fun n c => n * 2 + (c.toNat - 48)) 0 : Nat), 0⟩ else .nan
  | '+' :: rest =>
    if rest = "Infinity".data then .posInf
    else match parseUnsignedDec rest with
      | some d => .val d
      | none => .nan
  | '-' :: rest =>
    if rest = "Infinity".data then .negInf
    else match parseUnsignedDec rest with
      | some d => .val ⟨-d.mant, d.exp⟩
      | none => .nan
  | rest =>
    if rest = "Infinity".data then .posInf
    else match parseUnsignedDec rest with
      | some d => .val d
      | none => .nan

/-- Model of the JavaScript unary plus on a string (the ECMAScript
StringToNumber operation): surrounding whitespace is ignored, the empty
remainder is zero, and otherwise the string must be exactly one numeric
literal. -/
def jsStringToNum (s : String) : JsNum :=
  let t := jsTrim s
  if t = "" then .val ⟨0, 0⟩ else parseNumericLiteral t.data

/-- Fuel-driven worker for factorOut; the fuel bounds the number of
divisions, and any fuel of at least the starting value is enough. -/
def factorOutAux (p : Nat) : Nat → Nat → Nat × Nat
  | 0, n => (0, n)
  | fuel + 1, n =>
    if 2 ≤ p ∧ 0 < n ∧ n % p = 0 then
      let r := factorOutAux p fuel (n / p)
      (r.1 + 1, r.2)
    else (0, n)

/-- Count how many times p divides n, together with the quotient by that
power.  Used to strip trailing zero digits. -/
def factorOut (p : Nat) (n : Nat) : Nat × Nat := factorOutAux p n n

/-- Decimal digit string of a positive scaled decimal, with its length
and the position of the decimal point, in the sense of the ECMAScript
Number-to-String algorithm: the value equals s times ten to the power n
minus k, where s is the digit string without trailing zeros, k its
length, and n the returned position. -/
def decimalDigitsOf (d : DecNum) : String × Nat × Int :=
  let a := d.mant.natAbs
  let (t, s) := factorOut 10 a
  let sStr := toString s
  let k := sStr.length
  (sStr, k, (k : Int) + (t : Int) + d.exp)

/-- Format a positive finite-decimal value per the ECMAScript
Number-to-String algorithm, given its digit string, digit count and
decimal-point position. -/
def formatDecimal (sStr : String) (k : Nat) (n : Int) : String :=
  if 1 ≤ n ∧ n ≤ 21 then
    if (k : Int) ≤ n then
      sStr ++ String.mk (List.replicate (n - k).toNat '0')
    else
      sStr.take n.toNat ++ "." ++ sStr.drop n.toNat
  else if -5 ≤ n ∧ n ≤ 0 then
    "0." ++ String.mk (List.replicate (-n).toNat '0') ++ sStr
  else
    let e := n - 1
    let mant := if k = 1 then sStr else sStr.take 1 ++ "." ++ sStr.drop 1
    mant ++ "e" ++ (if 0 ≤ e then "+" ++ toString e else toString e)

/-- Model of JavaScript String(n) for a number value (the ECMAScript
Number-to-String algorithm on the embedded number space). -/
def jsNumToString : JsNum → String
  | .nan => "NaN"
  | .posInf => "Infinity"
  | .negInf => "-Infinity"
  | .val d =>
    if d.mant = 0 then "0"
    else
      let (sStr, k, n) := decimalDigitsOf d
      if 0 < d.mant then formatDecimal sStr k n
      else "-" ++ formatDecimal sStr k n

/-- Sorting key classification used by coerceToArray: a key is numeric
when the string survives the round trip through unary plus and String,
exactly the check String(+a) === a in the source (c-hash-chat.js line 33). -/
def keyIsNumeric (s : String) : Bool := jsNumToString (jsStringToNum s) = s

/-- Sign of the difference of two JavaScript numbers, as consumed by
Array.prototype.sort.  A difference involving NaN (including the
difference of two equal infinities) is modelled as zero, matching how the
sort implementation treats a comparator result that is neither less than
nor greater than zero. -/
def jsNumCompare : JsNum → JsNum → Int
  | .nan, _ => 0
  | _, .nan => 0
  | .posInf, .posInf => 0
  | .posInf, _ => 1
  | _, .posInf => -1
  | .negInf, .negInf => 0
  | .negInf, _ => -1
  | _, .negInf => 1
  | .val x, .val y => decCompare x y

/-- Model of String.prototype.localeCompare as code-point order.  The
source compares non-numeric keys with localeCompare under the host's
default locale; this model uses plain lexicographic code-point order,
which agrees with the default collation on the alphanumeric keys the
application produces. -/
def localeCompareModel (a b : String) : Int :=
  if a < b then -1 else if b < a then 1 else 0

/-- Model of the key comparator passed to sort in coerceToArray
(c-hash-chat.js lines 31-38): numeric keys compare by numeric value and
sort before non-numeric keys; non-numeric keys compare by localeCompare. -/
def keyCompare (a b : String) : Int :=
  if keyIsNumeric a ∧ keyIsNumeric b then jsNumCompare (jsStringToNum a) (jsStringToNum b)
  else if keyIsNumeric a then -1
  else if keyIsNumeric b then 1
  else localeCompareModel a b

/-- Insert a after every element b the comparator does not order strictly
after a, preserving the relative order of tied elements. -/
def stableInsert (cmp : String → String → Int) (a : String) : List String → List String
  | [] => [a]
  | b :: l => if cmp b a ≤ 0 then b :: stableInsert cmp a l else a :: b :: l

/-- Model of Array.prototype.sort with a comparator: a stable comparison
sort, inserting the elements left to right. -/
def jsSortWith (cmp : String → String → Int) (l : List String) : List String :=
  l.foldl (fun acc a => stableInsert cmp a acc) []

/-- Trimmed, whitespace-collapsed message record produced by
normalizeMessage: the projection of a message to its type and content
fields (c-hash-chat.js lines 4-9). -/
structure NormMsg where
  type : String
  content : String
deriving DecidableEq, Repr

/-- Model of normalizeMessage (c-hash-chat.js lines 4-9): project a value
to String(m?.type || '').trim() and String(m?.content || '') with runs of
whitespace collapsed to one space and then trimmed. -/
def normalizeMessage (m : JSValue) : NormMsg :=
  { type := jsTrim (jsToString (jsOr (jsGetOpt m "type") (.str ""))),
    content := jsTrim (collapseWs (jsToString (jsOr (jsGetOpt m "content") (.str "")))) }

/-- Model of coerceToArray (c-hash-chat.js lines 19-43): an array maps
element-wise; an object with an array-valued messages field uses that
array; an object with a type or content key is a single message; any
other object is a keyed dictionary whose entries are ordered by the key
comparator; every other value yields the empty list.  Object keys are
enumerated in binding order; the enumeration order can only influence the
result through comparator ties, which distinct well-formed keys never
produce. -/
def coerceToArray (input : JSValue) : List NormMsg :=
  match input with
  | .arr xs => xs.map normalizeMessage
  | .obj fields =>
    match jsGetOpt input "messages" with
    | .arr ms => ms.map normalizeMessage
    | _ =>
      if jsHasKey fields "type" ∨ jsHasKey fields "content" then
        [normalizeMessage input]
      else
        (jsSortWith keyCompare (fields.map Prod.fst)).map
          (fun k => normalizeMessage (jsGetOpt input k))
  | _ => []

/-- Lowercase hexadecimal digit for a value below sixteen. -/
def hexDigit (n : Nat) : Char :=
  if n < 10 then Char.ofNat (48 + n) else Char.ofNat (87 + n)

/-- Escape one character per JSON.stringify's string serialization:
quote and backslash get a backslash escape, the named control characters
get their two-character escapes, other control characters get a
four-digit unicode escape, and everything else is emitted verbatim. -/
def jsonEscapeChar (c : Char) : String :=
  if c = '"' then "\\\""
  else if c = '\\' then "\\\\"
  else if c.toNat = 8 then "\\b"
  else if c.toNat = 9 then "\\t"
  else if c.toNat = 10 then "\\n"
  else if c.toNat = 12 then "\\f"
  else if c.toNat = 13 then "\\r"
  else if c.toNat < 32 then
    "\\u00" ++ String.mk [hexDigit (c.toNat / 16), hexDigit (c.toNat % 16)]
  else String.singleton c

/-- JSON string literal for s, per JSON.stringify. -/
def jsonStr (s : String) : String :=
  "\"" ++ String.join (s.data.map jsonEscapeChar) ++ "\""

/-- JSON.stringify of one normalized message object: the type and content
fields in insertion order. -/
def serializeMsg (m : NormMsg) : String :=
  "\x7b\"type\":" ++ jsonStr m.type ++ ",\"content\":" ++ jsonStr m.content ++ "\x7d"

/-- Model of canonicalizeChat (c-hash-chat.js lines 48-51):
JSON.stringify of the composite with fields v, count and messages in
insertion order, where v is the number one, count the coerced list's
length, and messages the array of normalized message objects. -/
def canonicalizeChat (input : JSValue) : String :=
  let msgs := coerceToArray input
  "\x7b\"v\":1,\"count\":" ++ toString msgs.length ++ ",\"messages\":[" ++
    String.intercalate "," (msgs.map serializeMsg) ++ "]\x7d"

/-- UTF-8 encoding of a string as a byte list, the model of TextEncoder
in sha256Hex (c-hash-chat.js line 57). -/
def utf8Encode (s : String) : List Nat :=
  s.data.flatMap (fun c =>
    let v := c.toNat
    if v < 0x80 then [v]
    else if v < 0x800 then [0xC0 + v / 64, 0x80 + v % 64]
    else if v < 0x10000 then
      [0xE0 + v / 4096, 0x80 + v / 64 % 64, 0x80 + v % 64]
    else
      [0xF0 + v / 262144, 0x80 + v / 4096 % 64, 0x80 + v / 64 % 64, 0x80 + v % 64])

/-- Addition modulo two to the thirty-two. -/
def add32 (a b : Nat) : Nat := (a + b) % 4294967296

/-- Right rotation of a thirty-two bit word. -/
def rotr32 (x k : Nat) : Nat :=
  (x / 2 ^ k + x % 2 ^ k * 2 ^ (32 - k)) % 4294967296

/-- Bitwise complement of a thirty-two bit word. -/
def not32 (x : Nat) : Nat := Nat.xor x 4294967295

/-- Simple primality test by trial division, adequate for the small
bound used to list the first sixty-four primes. -/
def isPrimeNat (n : Nat) : Bool :=
  2 ≤ n && (List.range n).all (fun d => d < 2 || n % d ≠ 0)

/-- The first count prime numbers. -/
def firstPrimes (count : Nat) : List Nat :=
  ((List.range 400).filter isPrimeNat).take count

/-- Bisection step for the integer k-th root: narrows a bracket lo, hi
with lo to the k below or at n and hi to the k above it. -/
def irootAux (k n : Nat) : Nat → Nat → Nat → Nat
  | 0, lo, _ => lo
  | fuel + 1, lo, hi =>
    let mid := (lo + hi) / 2
    if mid = lo then lo
    else if mid ^ k ≤ n then irootAux k n fuel mid hi
    else irootAux k n fuel lo mid

/-- Integer k-th root: the largest x with x to the k at most n. -/
def iroot (k n : Nat) : Nat := irootAux k n 256 0 (n + 2)

/-- SHA-256 round constants: the first thirty-two bits of the fractional
parts of the cube roots of the first sixty-four primes, as the standard
defines them. -/
def sha256K : List Nat :=
  (firstPrimes 64).map (fun p => iroot 3 (p * 2 ^ 96) % 2 ^ 32)

/-- SHA-256 initial hash value: the first thirty-two bits of the
fractional parts of the square roots of the first eight primes. -/
def sha256H0 : List Nat :=
  (firstPrimes 8).map (fun p => iroot 2 (p * 2 ^ 64) % 2 ^ 32)

/-- Pad a byte message per SHA-256: append the 0x80 byte, zero bytes to
reach fifty-six modulo sixty-four, and the bit length in eight big-endian
bytes. -/
def sha256Pad (msg : List Nat) : List Nat :=
  let len := msg.length
  let padZeros := (55 + 64 - len % 64) % 64
  let bitLen := len * 8
  msg ++ [0x80] ++ List.replicate padZeros 0 ++
    [bitLen / 2 ^ 56 % 256, bitLen / 2 ^ 48 % 256, bitLen / 2 ^ 40 % 256,
     bitLen / 2 ^ 32 % 256, bitLen / 2 ^ 24 % 256, bitLen / 2 ^ 16 % 256,
     bitLen / 2 ^ 8 % 256, bitLen % 256]

/-- Fuel-driven worker for chunksOf; fuel of at least the list length is
enough when the chunk size is positive. -/
def chunksOfAux (n : Nat) : Nat → List α → List (List α)
  | _, [] => []
  | 0, _ :: _ => []
  | fuel + 1, a :: as => (a :: as).take n :: chunksOfAux n fuel ((a :: as).drop n)

/-- Split a list into chunks of n elements (n positive), in order. -/
def chunksOf (n : Nat) (l : List α) : List (List α) := chunksOfAux n l.length l

/-- Combine four big-endian bytes into one thirty-two bit word. -/
def wordOfBytes : List Nat → Nat
  | [a, b, c, d] => a * 16777216 + b * 65536 + c * 256 + d
  | _ => 0

/-- One message-schedule extension step: append the next schedule word. -/
def sha256ExtendStep (w : List Nat) : List Nat :=
  let w15 := w.getD (w.length - 15) 0
  let w2 := w.getD (w.length - 2) 0
  let w16 := w.getD (w.length - 16) 0
  let w7 := w.getD (w.length - 7) 0
  let s0 := Nat.xor (rotr32 w15 7) (Nat.xor (rotr32 w15 18) (w15 / 2 ^ 3))
  let s1 := Nat.xor (rotr32 w2 17) (Nat.xor (rotr32 w2 19) (w2 / 2 ^ 10))
  w ++ [add32 (add32 w16 s0) (add32 w7 s1)]

/-- Message-schedule extension: extend the sixteen block words by
forty-eight further words to the sixty-four schedule words. -/
def sha256Extend (w : List Nat) : List Nat :=
  Nat.rec w (fun _ acc => sha256ExtendStep acc) 48

/-- One SHA-256 compression round, transforming the eight-word working
state by one schedule word and round constant. -/
def sha256Round (st : Nat × Nat × Nat × Nat × Nat × Nat × Nat × Nat)
    (kw : Nat × Nat) : Nat × Nat × Nat × Nat × Nat × Nat × Nat × Nat :=
  let (a, b, c, d, e, f, g, h) := st
  let s1 := Nat.xor (rotr32 e 6) (Nat.xor (rotr32 e 11) (rotr32 e 25))
  let ch := Nat.xor (Nat.land e f) (Nat.land (not32 e) g)
  let temp1 := add32 h (add32 s1 (add32 ch (add32 kw.1 kw.2)))
  let s0 := Nat.xor (rotr32 a 2) (Nat.xor (rotr32 a 13) (rotr32 a 22))
  let maj := Nat.xor (Nat.land a b) (Nat.xor (Nat.land a c) (Nat.land b c))
  let temp2 := add32 s0 maj
  (add32 temp1 temp2, a, b, c, add32 d temp1, e, f, g)

/-- Process one sixty-four byte block, updating the eight-word hash
state. -/
def sha256Block (hs : List Nat) (block : List Nat) : List Nat :=
  let w := sha256Extend ((chunksOf 4 block).map wordOfBytes)
  match hs with
  | [h0, h1, h2, h3, h4, h5, h6, h7] =>
    let init : Nat × Nat × Nat × Nat × Nat × Nat × Nat × Nat :=
      (h0, h1, h2, h3, h4, h5, h6, h7)
    let (a, b, c, d, e, f, g, h) := (sha256K.zip w).foldl
      (fun st kw => sha256Round st (kw.1, kw.2)) init
    [add32 h0 a, add32 h1 b, add32 h2 c, add32 h3 d,
     add32 h4 e, add32 h5 f, add32 h6 g, add32 h7 h]
  | _ => hs

/-- SHA-256 digest of a byte list, as thirty-two bytes. -/
def sha256Bytes (msg : List Nat) : List Nat :=
  let final := (chunksOf 64 (sha256Pad msg)).foldl sha256Block sha256H0
  final.flatMap (fun w => [w / 16777216 % 256, w / 65536 % 256, w / 256 % 256, w % 256])

/-- Two lowercase hexadecimal digits of one byte, as produced by
toString(16) with padStart(2, '0') in sha256Hex (c-hash-chat.js
line 58). -/
def byteToHex (b : Nat) : String :=
  String.mk [hexDigit (b / 16 % 16), hexDigit (b % 16)]

/-- Model of sha256Hex (c-hash-chat.js lines 56-59): the lowercase
hexadecimal SHA-256 digest of the UTF-8 bytes of the string. -/
def sha256Hex (s : String) : String :=
  String.join ((sha256Bytes (utf8Encode s)).map byteToHex)

/-- Model of hashChat (c-hash-chat.js lines 64-67): the SHA-256 hex
digest of the salt, a vertical-bar separator, and the canonical JSON
form of the input. -/
def hashChat (input : JSValue) (salt : String) : String :=
  sha256Hex (salt ++ "|" ++ canonicalizeChat input)

/-- Node of the parsed markup tree, as far as turn extraction inspects
it: text nodes, explicit line-break elements, and other elements with a
tag name and children.  Attributes of descendant elements are not
carried, because extraction reads attributes only on the selected
role-marked nodes themselves. -/
inductive DomNode where
  | text (s : String)
  | br
  | elem (tag : String) (children : List DomNode)

/-- Role-marked element selected by the attribute query in collectTurns:
its two attributes of interest and its child list. -/
structure RoleEl where
  roleAttr : Option String
  msgIdAttr : Option String
  children : List DomNode

/-- Tag set treated as block-level by collectTurns (d-render-chat.js
line 27). -/
def isBlockTag (t : String) : Bool :=
  t = "p" || t = "div" || t = "h1" || t = "h2" || t = "h3" || t = "h4" ||
  t = "h5" || t = "h6" || t = "li"

mutual

/-- Model of replacing every br descendant with a newline text node
(d-render-chat.js lines 22-24). -/
def replaceBrNode : DomNode → DomNode
  | .text s => .text s
  | .br => .text "\n"
  | .elem t cs => .elem t (replaceBrList cs)

/-- List version of replaceBrNode. -/
def replaceBrList : List DomNode → List DomNode
  | [] => []
  | n :: ns => replaceBrNode n :: replaceBrList ns

end

/-- Insert a newline text node after every block-level element that has a
following sibling (d-render-chat.js lines 27-31).  Processing the
selected elements in document order is equivalent to this per-child-list
pass, because each insertion lands strictly between a block and its
already-existing following sibling. -/
def insertAfterBlocks : List DomNode → List DomNode
  | [] => []
  | [n] => [n]
  | .elem t cs :: rest =>
    if isBlockTag t then .elem t cs :: .text "\n" :: insertAfterBlocks rest
    else .elem t cs :: insertAfterBlocks rest
  | n :: rest => n :: insertAfterBlocks rest

mutual

/-- Recursive worker applying insertAfterBlocks below every element. -/
def addBlockNewlinesNode : DomNode → DomNode
  | .text s => .text s
  | .br => .br
  | .elem t cs => .elem t (insertAfterBlocks (addBlockNewlinesList cs))

/-- List version of addBlockNewlinesNode. -/
def addBlockNewlinesList : List DomNode → List DomNode
  | [] => []
  | n :: ns => addBlockNewlinesNode n :: addBlockNewlinesList ns

end

mutual

/-- Model of Node.textContent: the concatenation of all descendant text
node values in document order. -/
def textContentNode : DomNode → String
  | .text s => s
  | .br => ""
  | .elem _ cs => textContentList cs

/-- List version of textContentNode. -/
def textContentList : List DomNode → String
  | [] => ""
  | n :: ns => textContentNode n ++ textContentList ns

end

/-- Escape of one character in serialized markup text. -/
def htmlEscapeChar (c : Char) : String :=
  if c = '&' then "&amp;" else if c = '<' then "&lt;"
  else if c = '>' then "&gt;" else String.singleton c

mutual

/-- Serialization of a markup node, modelling Element.innerHTML on the
embedded tree.  The extraction core stores this string opaquely and never
inspects it. -/
def innerHtmlNode : DomNode → String
  | .text s => String.join (s.data.map htmlEscapeChar)
  | .br => "<br>"
  | .elem t cs => "<" ++ t ++ ">" ++ innerHtmlList cs ++ "</" ++ t ++ ">"

/-- List version of innerHtmlNode. -/
def innerHtmlList : List DomNode → String
  | [] => ""
  | n :: ns => innerHtmlNode n ++ innerHtmlList ns

end

/-- Extracted turn record pushed by collectTurns (d-render-chat.js
lines 43-48). -/
structure Turn where
  msgId : String
  type : String
  content : String
  rawHtml : String
deriving DecidableEq, Repr

/-- Role of a selected element: the role attribute, empty when absent,
then trimmed (d-render-chat.js line 15). -/
def roleOf (el : RoleEl) : String :=
  jsTrim (el.roleAttr.getD "")

/-- Message id of a selected element at position idx: the id attribute
when present and non-empty, else the synthetic idx- prefixed position,
then trimmed (d-render-chat.js line 16). -/
def msgIdOf (idx : Nat) (el : RoleEl) : String :=
  jsTrim (match el.msgIdAttr with
    | some s => if s = "" then "idx-" ++ toString idx else s
    | none => "idx-" ++ toString idx)

/-- Normalized text of a selected element (d-render-chat.js lines
19-40): replace br nodes by newlines, insert newlines after block
elements with following siblings, take the text content, convert literal
backslash-n escapes to newlines, collapse runs of non-newline whitespace
to one space, trim, and collapse three or more newlines to two. -/
def contentOf (el : RoleEl) : String :=
  collapseNewlines (jsTrim (collapseNonNlWs (replaceLitNewlineStr
    (textContentList (insertAfterBlocks (addBlockNewlinesList
      (replaceBrList el.children)))))))

/-- Turn record built from a selected element at position idx. -/
def mkTurn (idx : Nat) (el : RoleEl) : Turn :=
  { msgId := msgIdOf idx el, type := roleOf el,
    content := contentOf el, rawHtml := innerHtmlList el.children }

/-- Worker for collectTurns, carrying the zero-based position of the next
element among the selected nodes. -/
def collectTurnsGo (idx : Nat) : List RoleEl → List Turn
  | [] => []
  | el :: rest =>
    if roleOf el ≠ "" ∧ contentOf el ≠ "" then
      mkTurn idx el :: collectTurnsGo (idx + 1) rest
    else
      collectTurnsGo (idx + 1) rest

/-- Model of collectTurns (d-render-chat.js lines 7-53): iterate over the
role-marked nodes in document order, pushing a turn for each node whose
trimmed role and normalized content are both non-empty. -/
def collectTurns (nodes : List RoleEl) : List Turn :=
  collectTurnsGo 0 nodes

/-- JavaScript value of an extracted turn list as passed to hashChat by
loadChat (d-render-chat.js line 81): an array of objects with the msgId,
type, content and rawHtml fields in insertion order. -/
def turnsToJS (ts : List Turn) : JSValue :=
  .arr (ts.map (fun t => .obj
    [("msgId", .str t.msgId), ("type", .str t.type),
     ("content", .str t.content), ("rawHtml", .str t.rawHtml)]))

/-- Local storage, modelled as an association list from keys to stored
values.  Values are kept structurally: the JSON.stringify before setItem
and the JSON.parse after getItem round-trip on everything the
application stores, so serialization is modelled as the identity.  A
stored value that is not an object plays the role of a corrupt entry for
the load functions below. -/
def Store := List (String × JSValue)

/-- Model of localStorage.getItem: the most recent binding of the key. -/
def lsGet (st : Store) (k : String) : Option JSValue :=
  match (List.find? (fun p => p.1 = k) st) with
  | some p => some p.2
  | none => none

/-- Model of localStorage.setItem: bind the key, shadowing any previous
binding. -/
def lsSet (st : Store) (k : String) (v : JSValue) : Store :=
  (k, v) :: List.filter (fun p => p.1 ≠ k) st

/-- Model of localStorage.removeItem. -/
def lsRemove (st : Store) (k : String) : Store :=
  List.filter (fun p => p.1 ≠ k) st

/-- Key of the per-chat settings facet (d-render-chat.js and the main
script: the ChatWorkspace_ prefix plus the chat id). -/
def settingsKey (id : String) : String := "ChatWorkspace_" ++ id

/-- Key of the cached raw chat markup facet. -/
def htmlKey (id : String) : String := "ChatWorkspace_" ++ id ++ "_html"

/-- Key of the outline facet. -/
def outlineKey (id : String) : String := "ChatWorkspace_" ++ id ++ "_outline"

/-- Key of the comments facet. -/
def commentsKey (id : String) : String := "ChatWorkspace_" ++ id ++ "_comments"

/-- Key of the indents facet. -/
def indentsKey (id : String) : String := "ChatWorkspace_" ++ id ++ "_indents"

/-- Key of the notes facet. -/
def notesKey (id : String) : String := "ChatWorkspace_" ++ id ++ "_notes"

/-- Model of JavaScript property assignment on a plain object: an
existing key keeps its position and gets the new value, a fresh key is
appended in insertion order. -/
def objSet (fields : List (String × JSValue)) (k : String) (v : JSValue) :
    List (String × JSValue) :=
  match fields with
  | [] => [(k, v)]
  | (k', v') :: rest =>
    if k' = k then (k, v) :: rest else (k', v') :: objSet rest k v

/-- Model of the JavaScript delete operator on a plain object. -/
def objDelete (fields : List (String × JSValue)) (k : String) :
    List (String × JSValue) :=
  List.filter (fun p => p.1 ≠ k) fields

/-- Generic facet-map loader shared by loadOutlineData, loadCommentsData
and loadIndentsData (main script lines 1019-1035, 1062-1078, 1772-1788):
with no current chat, a missing key, or a stored value that is not an
object, the result is the empty map. -/
def loadFacetMap (currentChatId : Option String) (keyFn : String → String)
    (st : Store) : List (String × JSValue) :=
  match currentChatId with
  | none => []
  | some id =>
    match lsGet st (keyFn id) with
    | some (.obj fields) => fields
    | _ => []

/-- Model of loadIndentsData (main script lines 1019-1035). -/
def loadIndentsData (currentChatId : Option String) (st : Store) :
    List (String × JSValue) :=
  loadFacetMap currentChatId indentsKey st

/-- Model of loadCommentsData (main script lines 1062-1078). -/
def loadCommentsData (currentChatId : Option String) (st : Store) :
    List (String × JSValue) :=
  loadFacetMap currentChatId commentsKey st

/-- Model of loadOutlineData (main script lines 1772-1788). -/
def loadOutlineData (currentChatId : Option String) (st : Store) :
    List (String × JSValue) :=
  loadFacetMap currentChatId outlineKey st

/-- Model of saveIndent (main script lines 1040-1057): with a current
chat, read the indents map, set the entry at the turn index when the
level is positive and delete it otherwise, and write the map back.  The
rendering refresh at the end touches no storage and is not modelled. -/
def saveIndent (currentChatId : Option String) (st : Store)
    (turnIndex : Nat) (level : Int) : Store :=
  match currentChatId with
  | none => st
  | some id =>
    let fields := loadIndentsData currentChatId st
    let fields' :=
      if 0 < level then objSet fields (toString turnIndex) (.num level)
      else objDelete fields (toString turnIndex)
    lsSet st (indentsKey id) (.obj fields')

/-- Model of saveComment (main script lines 1133-1158): with a current
chat, read the comments map; when either trimmed comment is non-empty,
set the entry at the turn index to the pair, blanking whichever side is
empty; when both are empty, delete the entry; write the map back.  The
null and undefined cases of the source's presence checks are the none
case of the optional arguments. -/
def saveComment (currentChatId : Option String) (st : Store)
    (turnIndex : Nat) (headingComment turnComment : Option String) : Store :=
  match currentChatId with
  | none => st
  | some id =>
    let fields := loadCommentsData currentChatId st
    let hasHeading := match headingComment with
      | some h => jsTrim h != ""
      | none => false
    let hasTurn := match turnComment with
      | some t => jsTrim t != ""
      | none => false
    let fields' :=
      if hasHeading || hasTurn then
        objSet fields (toString turnIndex) (.obj
          [("heading", .str (if hasHeading then headingComment.getD "" else "")),
           ("turn", .str (if hasTurn then turnComment.getD "" else ""))])
      else objDelete fields (toString turnIndex)
    lsSet st (commentsKey id) (.obj fields')

/-- Model of saveOutlineItem (main script lines 1793-1804): with a
current chat, read the outline map, set the entry at the turn index to
the given text unconditionally, and write the map back. -/
def saveOutlineItem (currentChatId : Option String) (st : Store)
    (turnIndex : Nat) (text : String) : Store :=
  match currentChatId with
  | none => st
  | some id =>
    let fields := loadOutlineData currentChatId st
    lsSet st (outlineKey id) (.obj (objSet fields (toString turnIndex) (.str text)))

/-- Model of resetAllOutlineItems (main script lines 1809-1832): with a
current chat and a non-empty turn list, remove the outline, comments and
indents keys; the rendering refreshes touch no storage and are not
modelled. -/
def resetAllOutlineItems (currentChatId : Option String)
    (turns : List Turn) (st : Store) : Store :=
  match currentChatId with
  | none => st
  | some id =>
    if turns = [] then st
    else lsRemove (lsRemove (lsRemove st (outlineKey id)) (commentsKey id)) (indentsKey id)

/-- Observable action performed by the URL-parameter handler, recorded
in the order the source performs it. -/
inductive Effect where
  | fetchShared (id : String)
  | setItem (key : String)
  | pushStateOpen (id : String)
  | invokeLoadChat
  | alertSharedSaved
  | alertSharedFailed
  | readLocalHtml (id : String)
  | redirectToShared (id : String)
deriving DecidableEq, Repr

/-- Result of the shared branch of handleUrlParameters (main script
lines 2313-2387): the updated local store and the effect trace.  The
remote parameter models the blob store behind the fetch of
shared/id.json: none is a failed response, some a parsed document. -/
def processShared (id : String) (remote : String → Option JSValue)
    (st : Store) : Store × List Effect :=
  match remote id with
  | none => (st, [.fetchShared id, .alertSharedFailed])
  | some doc =>
    let data := jsGetOpt doc "data"
    let hasData := truthy data
    let chatHtml := jsGetOpt data "chatHtml"
    let st1 :=
      if hasData ∧ truthy chatHtml = true then lsSet st (htmlKey id) chatHtml else st
    let e1 :=
      if hasData ∧ truthy chatHtml = true then [Effect.setItem (htmlKey id)] else []
    let outline := jsGetOpt data "outline"
    let st2 := if hasData ∧ truthy outline = true then lsSet st1 (outlineKey id) outline else st1
    let e2 := if hasData ∧ truthy outline = true then [Effect.setItem (outlineKey id)] else []
    let comments := jsGetOpt data "comments"
    let st3 := if hasData ∧ truthy comments = true then lsSet st2 (commentsKey id) comments else st2
    let e3 := if hasData ∧ truthy comments = true then [Effect.setItem (commentsKey id)] else []
    let indents := jsGetOpt data "indents"
    let st4 := if hasData ∧ truthy indents = true then lsSet st3 (indentsKey id) indents else st3
    let e4 := if hasData ∧ truthy indents = true then [Effect.setItem (indentsKey id)] else []
    let notes := jsGetOpt data "notes"
    let st5 := if hasData ∧ truthy notes = true then lsSet st4 (notesKey id) notes else st4
    let e5 := if hasData ∧ truthy notes = true then [Effect.setItem (notesKey id)] else []
    let tail :=
      if hasData ∧ truthy chatHtml = true then [Effect.pushStateOpen id, .invokeLoadChat]
      else [Effect.pushStateOpen id, .alertSharedSaved]
    (st5, .fetchShared id :: (e1 ++ e2 ++ e3 ++ e4 ++ e5 ++ tail))

/-- Result of the open branch of handleUrlParameters (main script lines
2390-2423): look for the cached raw markup in the local store; when it
is present and non-empty, load the chat from it; otherwise navigate to
the shared form of the URL. -/
def processOpen (id : String) (st : Store) : Store × List Effect :=
  match lsGet st (htmlKey id) with
  | some saved =>
    if truthy saved then (st, [.readLocalHtml id, .invokeLoadChat])
    else (st, [.readLocalHtml id, .redirectToShared id])
  | none => (st, [.readLocalHtml id, .redirectToShared id])

/-- Model of handleUrlParameters (main script lines 2309-2424): the
shared parameter, when present, is handled and the function returns;
only otherwise is the open parameter examined. -/
def handleUrlParameters (sharedParam openParam : Option String)
    (remote : String → Option JSValue) (st : Store) : Store × List Effect :=
  match sharedParam with
  | some id => processShared id remote st
  | none =>
    match openParam with
    | some id => processOpen id st
    | none => (st, [])

/-- Check whether every character is an ASCII letter or digit. -/
def isAlnumAscii (c : Char) : Bool :=
  ('a' ≤ c && c ≤ 'z') || ('A' ≤ c && c ≤ 'Z') || ('0' ≤ c && c ≤ '9')

/-- Strict body of the conversation-id pattern: thirty-two to one
hundred twenty-eight ASCII alphanumerics and nothing else. -/
def validIdCore (s : List Char) : Bool :=
  32 ≤ s.length && s.length ≤ 128 && s.all isAlnumAscii

/-- Model of the conversation-id format check in share.php line 23:
preg_match with the anchored pattern of thirty-two to one hundred
twenty-eight alphanumerics.  PCRE's dollar anchor, without the D
modifier, matches at the end of the subject or immediately before one
line feed that ends it, so the endpoint also accepts such an id
followed by a single trailing line feed. -/
def validConversationId (id : String) : Bool :=
  validIdCore id.data ||
    (match id.data.getLast? with
     | some c => c = '\n' && validIdCore id.data.dropLast
     | none => false)

/-- HTTP response produced by the share endpoint: status code and JSON
body. -/
structure PhpResponse where
  status : Nat
  body : JSValue

/-- File system behind the share endpoint, mapping file names to stored
JSON documents (written with file_put_contents of the serialized
document; serialization is modelled structurally). -/
def ShareFS := List (String × JSValue)

/-- Truthiness of a decoded JSON value under the PHP empty() check used
by share.php lines 55-72: null, false, zero, the empty string, the
string zero and the empty array or object are empty.  Decoded JSON
objects are PHP associative arrays, so the empty object is empty. -/
def phpNonEmpty : JSValue → Bool
  | .null => false
  | .undefined => false
  | .bool b => b
  | .num n => n ≠ 0
  | .str s => s ≠ "" && s ≠ "0"
  | .arr [] => false
  | .arr (_ :: _) => true
  | .obj [] => false
  | .obj (_ :: _) => true

/-- Subset of the decoded request body kept in the stored document:
each known field appears exactly when it decodes non-null and non-empty
(share.php lines 40-72). -/
def shareDataFields (data : JSValue) : List (String × JSValue) :=
  (["chatHtml", "turns", "outline", "comments", "indents", "notes"].filterMap
    (fun name =>
      match jsGetOpt data name with
      | .undefined => none
      | .null => none
      | v => if phpNonEmpty v then some (name, v) else none))

/-- Model of share.php (the share endpoint, lines 1-106): reject
non-POST methods with 405; reject a missing or malformed conversation id
with 400 before touching storage; reject an unparsable body (the none
case) with 400; otherwise store the document under shared/id.json and
answer 200 with the success payload, reporting whether the file was new.
The now parameter stands for the request timestamp; directory creation
and write failures of the host file system are not modelled. -/
def sharePhp (method : String) (idParam : Option String)
    (body : Option JSValue) (now : String) (fs : ShareFS) :
    PhpResponse × ShareFS :=
  if method ≠ "POST" then
    ({ status := 405, body := .obj [("error", .str "Method not allowed. Use POST.")] }, fs)
  else
    match idParam with
    | none =>
      ({ status := 400,
         body := .obj [("error", .str "Missing conversation ID in query parameter")] }, fs)
    | some id =>
      if validConversationId id = false then
        ({ status := 400, body := .obj [("error", .str "Invalid conversation ID format")] }, fs)
      else
        match body with
        | none =>
          ({ status := 400, body := .obj [("error", .str "Invalid JSON in request body")] }, fs)
        | some data =>
          let sharedData : JSValue := .obj
            [("conversationId", .str id), ("timestamp", .str now),
             ("data", .obj (shareDataFields data))]
          let filename := "shared/" ++ id ++ ".json"
          let isNew := (List.find? (fun p => p.1 = filename) fs).isNone
          let fs' := (filename, sharedData) :: List.filter (fun p => p.1 ≠ filename) fs
          ({ status := 200,
             body := .obj
               [("success", .bool true), ("conversationId", .str id),
                ("shareUrl", .str ("/shared/" ++ id ++ ".json")),
                ("timestamp", .str now), ("isNew", .bool isNew)] }, fs')

/-- Canonical form as claim C1 words it: identical to canonicalizeChat
except that the version field is named version rather than v.  Written
from the specification for comparison against the source's serializer. -/
def canonicalizeChatClaimed (input : JSValue) : String :=
  let msgs := coerceToArray input
  "\x7b\"version\":1,\"count\":" ++ toString msgs.length ++ ",\"messages\":[" ++
    String.intercalate "," (msgs.map serializeMsg) ++ "]\x7d"

/-- Full base-10 integer parse of a key, as claim C3 words the numeric
class: an optional minus sign followed by at least one decimal digit,
consuming the whole string. -/
def claimIntKey (s : String) : Option Int :=
  match s.data with
  | '-' :: ds => if ds ≠ [] ∧ ds.all Char.isDigit then some (-(digitsToNat ds : Int)) else none
  | ds => if ds ≠ [] ∧ ds.all Char.isDigit then some (digitsToNat ds) else none

/-- Key comparator as claim C3 words it: keys that parse fully as
base-10 integers sort numerically among themselves and before every
other key; other keys sort lexicographically.  Written from the
specification for comparison against the source comparator. -/
def claimKeyCompare (a b : String) : Int :=
  match claimIntKey a, claimIntKey b with
  | some m, some n => if m < n then -1 else if n < m then 1 else 0
  | some _, none => -1
  | none, some _ => 1
  | none, none => localeCompareModel a b

/-- Scaled-decimal value of a key, defaulting to zero off the finite
case; meaningful only under keyIsNumeric together with keyWellBehaved. -/
def decOf (s : String) : DecNum :=
  match jsStringToNum s with
  | .val d => d
  | _ => ⟨0, 0⟩

/-- Keys on which the comparator behaves as a total preorder: every key
except the three non-finite self-printing strings NaN, Infinity and
-Infinity, whose pairwise comparator results are not transitive. -/
def keyWellBehaved (s : String) : Bool :=
  !(keyIsNumeric s) ||
    (match jsStringToNum s with
     | .val _ => true
     | _ => false)

/-- Ordering the amended claim C3 asserts on the sorted key list:
numeric keys (in the round-trip sense of the source) order by numeric
value and precede every non-numeric key; non-numeric keys order
lexicographically. -/
def amendedKeyOrder (a b : String) : Prop :=
  if keyIsNumeric a then
    if keyIsNumeric b then decValue (decOf a) ≤ decValue (decOf b) else True
  else
    if keyIsNumeric b then False else a ≤ b

theorem find?_false {α : Type} (l : List α) :
    List.find? (fun _ => false) l = none := by
  induction l with
  | nil => rfl
  | cons a l ih => simp [List.find?, ih]

theorem lsGet_lsSet_same (st : Store) (k : String) (v : JSValue) :
    lsGet (lsSet st k v) k = some v := by
  simp [lsGet, lsSet, List.find?]

theorem lsGet_lsRemove_same (st : Store) (k : String) :
    lsGet (lsRemove st k) k = none := by
  simp [lsGet, lsRemove, List.find?_filter, find?_false]

theorem lsGet_lsRemove_other (st : Store) (k k' : String) (h : k' ≠ k) :
    lsGet (lsRemove st k) k' = lsGet st k' := by
  have hpred : (fun (a : String × JSValue) => (!decide (a.1 = k) && decide (a.1 = k'))) =
      (fun (a : String × JSValue) => decide (a.1 = k')) := by
    funext a
    by_cases ha : a.1 = k'
    · have hne : ¬ a.1 = k := by rw [ha]; exact fun he => h he
      simp [ha, hne, h]
    · simp [ha]
  simp [lsGet, lsRemove, List.find?_filter, hpred]

theorem objDelete_not_mem (fields : List (String × JSValue)) (k : String) :
    k ∉ (objDelete fields k).map Prod.fst := by
  intro hmem
  rcases List.mem_map.mp hmem with ⟨p, hp, hfst⟩
  rcases List.mem_filter.mp hp with ⟨_, hne⟩
  simp only [decide_eq_true_eq] at hne
  exact hne hfst

theorem objSet_mem (fields : List (String × JSValue)) (k : String) (v : JSValue) :
    k ∈ (objSet fields k v).map Prod.fst := by
  induction fields with
  | nil => simp [objSet]
  | cons p rest ih =>
    by_cases h : p.1 = k
    · simp [objSet, h]
    · simpa [objSet, h] using Or.inr ih


theorem chatKey_ne (id s1 s2 : String) (h : s1 ≠ s2) :
    "ChatWorkspace_" ++ id ++ s1 ≠ "ChatWorkspace_" ++ id ++ s2 := by
  intro he
  apply h
  have hd := congrArg String.data he
  simp only [String.data_append, List.append_assoc] at hd
  exact String.ext (List.append_cancel_left (List.append_cancel_left hd))

/-- C5.  Corrected form of the sentinel claim.  Saving the indents
sentinel (a non-positive level, in particular zero) deletes the entry at
the index, so a subsequent load of the facet carries no key for it; the
same holds for the comments sentinel (both sides null, undefined or
blank after trimming); saving the outline facet, however, stores the
given text unconditionally, so the entry remains present even for the
empty string. -/
theorem saveTurnEntry_sentinel_amended :
    (∀ (id : String) (st : Store) (idx : Nat) (lvl : Int), lvl ≤ 0 →
      toString idx ∉
        (loadIndentsData (some id) (saveIndent (some id) st idx lvl)).map Prod.fst) ∧
    (∀ (id : String) (st : Store) (idx : Nat) (h t : Option String),
      (∀ s, h = some s → jsTrim s = "") → (∀ s, t = some s → jsTrim s = "") →
      toString idx ∉
        (loadCommentsData (some id) (saveComment (some id) st idx h t)).map Prod.fst) ∧
    (∀ (id : String) (st : Store) (idx : Nat) (text : String),
      toString idx ∈
        (loadOutlineData (some id) (saveOutlineItem (some id) st idx text)).map Prod.fst) := by
  refine ⟨?_, ?_, ?_⟩
  · intro id st idx lvl hlvl
    have hnot : ¬ (0 < lvl) := by omega
    simp only [saveIndent, loadIndentsData, loadFacetMap, hnot, if_false, lsGet_lsSet_same]
    exact objDelete_not_mem _ _
  · intro id st idx h t hh ht
    cases h with
    | none =>
      cases t with
      | none =>
        simp only [saveComment, loadCommentsData, loadFacetMap, lsGet_lsSet_same,
          Bool.or_self, Bool.false_eq_true, if_false]
        exact objDelete_not_mem _ _
      | some s =>
        have hs : jsTrim s = "" := ht s rfl
        simp only [saveComment, loadCommentsData, loadFacetMap, lsGet_lsSet_same, hs,
          bne_self_eq_false, Bool.or_self, Bool.false_eq_true, if_false]
        exact objDelete_not_mem _ _
    | some s =>
      have hs : jsTrim s = "" := hh s rfl
      cases t with
      | none =>
        simp only [saveComment, loadCommentsData, loadFacetMap, lsGet_lsSet_same, hs,
          bne_self_eq_false, Bool.or_self, Bool.false_eq_true, if_false]
        exact objDelete_not_mem _ _
      | some s2 =>
        have hs2 : jsTrim s2 = "" := ht s2 rfl
        simp only [saveComment, loadCommentsData, loadFacetMap, lsGet_lsSet_same, hs, hs2,
          bne_self_eq_false, Bool.or_self, Bool.false_eq_true, if_false]
        exact objDelete_not_mem _ _
  · intro id st idx text
    simp only [saveOutlineItem, loadOutlineData, loadFacetMap, lsGet_lsSet_same]
    exact objSet_mem _ _ _

/-- C5 witness: the indents instance of the claim, saving level zero at
index three on the empty store. -/
theorem saveTurnEntry_sentinel_amended_witness :
    "3" ∉ (loadIndentsData (some "c")
      (saveIndent (some "c") ([] : Store) 3 0)).map Prod.fst :=
  saveTurnEntry_sentinel_amended.1 "c" ([] : Store) 3 0 (by decide)

/-- C5 counterexample: saving the outline facet's empty-string sentinel
at index three does not delete the entry; the loaded facet still carries
key three, against the claim's assertion that it carries none. -/
theorem saveTurnEntry_sentinel_counterexample :
    "3" ∈ (loadOutlineData (some "c")
      (saveOutlineItem (some "c") ([] : Store) 3 "")).map Prod.fst := by decide

/-- C6.  For every identity with a loaded conversation (a non-empty turn
list), resetAllOutlineItems empties the outline, comments and indents
facets and leaves the notes, settings and cached raw markup entries of
the store exactly as they were. -/
theorem resetAll_scope :
    ∀ (id : String) (turns : List Turn) (st : Store), turns ≠ [] →
      loadOutlineData (some id) (resetAllOutlineItems (some id) turns st) = [] ∧
      loadCommentsData (some id) (resetAllOutlineItems (some id) turns st) = [] ∧
      loadIndentsData (some id) (resetAllOutlineItems (some id) turns st) = [] ∧
      lsGet (resetAllOutlineItems (some id) turns st) (notesKey id) =
        lsGet st (notesKey id) ∧
      lsGet (resetAllOutlineItems (some id) turns st) (settingsKey id) =
        lsGet st (settingsKey id) ∧
      lsGet (resetAllOutlineItems (some id) turns st) (htmlKey id) =
        lsGet st (htmlKey id) := by
  intro id turns st hturns
  have hreset : resetAllOutlineItems (some id) turns st =
      lsRemove (lsRemove (lsRemove st (outlineKey id)) (commentsKey id)) (indentsKey id) := by
    simp [resetAllOutlineItems, hturns]
  have hoc : outlineKey id ≠ commentsKey id := chatKey_ne id _ _ (by decide)
  have hoi : outlineKey id ≠ indentsKey id := chatKey_ne id _ _ (by decide)
  have hci : commentsKey id ≠ indentsKey id := chatKey_ne id _ _ (by decide)
  have hsettings : settingsKey id = "ChatWorkspace_" ++ id ++ "" := by
    simp [settingsKey]
  refine ⟨?_, ?_, ?_, ?_, ?_, ?_⟩
  · rw [hreset]
    simp [loadOutlineData, loadFacetMap,
      lsGet_lsRemove_other _ _ _ hoi, lsGet_lsRemove_other _ _ _ hoc,
      lsGet_lsRemove_same]
  · rw [hreset]
    simp [loadCommentsData, loadFacetMap,
      lsGet_lsRemove_other _ _ _ hci, lsGet_lsRemove_same]
  · rw [hreset]
    simp [loadIndentsData, loadFacetMap, lsGet_lsRemove_same]
  · rw [hreset]
    have h1 : notesKey id ≠ indentsKey id := chatKey_ne id _ _ (by decide)
    have h2 : notesKey id ≠ commentsKey id := chatKey_ne id _ _ (by decide)
    have h3 : notesKey id ≠ outlineKey id := chatKey_ne id _ _ (by decide)
    rw [lsGet_lsRemove_other _ _ _ h1, lsGet_lsRemove_other _ _ _ h2,
      lsGet_lsRemove_other _ _ _ h3]
  · rw [hreset]
    have h1 : settingsKey id ≠ indentsKey id := by
      rw [hsettings]; exact chatKey_ne id _ _ (by decide)
    have h2 : settingsKey id ≠ commentsKey id := by
      rw [hsettings]; exact chatKey_ne id _ _ (by decide)
    have h3 : settingsKey id ≠ outlineKey id := by
      rw [hsettings]; exact chatKey_ne id _ _ (by decide)
    rw [lsGet_lsRemove_other _ _ _ h1, lsGet_lsRemove_other _ _ _ h2,
      lsGet_lsRemove_other _ _ _ h3]
  · rw [hreset]
    have h1 : htmlKey id ≠ indentsKey id := chatKey_ne id _ _ (by decide)
    have h2 : htmlKey id ≠ commentsKey id := chatKey_ne id _ _ (by decide)
    have h3 : htmlKey id ≠ outlineKey id := chatKey_ne id _ _ (by decide)
    rw [lsGet_lsRemove_other _ _ _ h1, lsGet_lsRemove_other _ _ _ h2,
      lsGet_lsRemove_other _ _ _ h3]

/-- C6 witness: resetting a one-turn conversation on a store holding an
outline entry and a notes entry empties the outline while preserving the
notes value. -/
theorem resetAll_scope_witness :
    loadOutlineData (some "c") (resetAllOutlineItems (some "c")
      [{ msgId := "idx-0", type := "user", content := "Hi", rawHtml := "Hi" }]
      [(outlineKey "c", .obj [("0", .str "x")]),
       (notesKey "c", .obj [("notes", .str "n")])]) = [] ∧
    lsGet (resetAllOutlineItems (some "c")
      [{ msgId := "idx-0", type := "user", content := "Hi", rawHtml := "Hi" }]
      [(outlineKey "c", .obj [("0", .str "x")]),
       (notesKey "c", .obj [("notes", .str "n")])]) (notesKey "c") =
      some (.obj [("notes", .str "n")]) := by
  have h := resetAll_scope "c"
    [{ msgId := "idx-0", type := "user", content := "Hi", rawHtml := "Hi" }]
    [(outlineKey "c", .obj [("0", .str "x")]),
     (notesKey "c", .obj [("notes", .str "n")])]
    (by simp)
  refine ⟨h.1, ?_⟩
  rw [h.2.2.2.1]
  rfl

theorem processShared_no_readLocal (id x : String)
    (remote : String → Option JSValue) (st : Store) :
    Effect.readLocalHtml x ∉ (processShared id remote st).2 := by
  intro hmem
  unfold processShared at hmem
  rcases hrem : remote id with _ | doc
  · rw [hrem] at hmem
    simp_all
  · rw [hrem] at hmem
    simp only [List.mem_cons, List.mem_append, List.not_mem_nil] at hmem
    split_ifs at hmem <;> simp_all

theorem processShared_no_redirect (id x : String)
    (remote : String → Option JSValue) (st : Store) :
    Effect.redirectToShared x ∉ (processShared id remote st).2 := by
  intro hmem
  unfold processShared at hmem
  rcases hrem : remote id with _ | doc
  · rw [hrem] at hmem
    simp_all
  · rw [hrem] at hmem
    simp only [List.mem_cons, List.mem_append, List.not_mem_nil] at hmem
    split_ifs at hmem <;> simp_all

/-- C7.  When both URL tokens are present, handleUrlParameters runs
exactly the shared branch: its result is the shared branch's result, and
the effect trace contains neither the local-cache read nor the
open-branch redirect, so no local-cache-only load occurs for the open
token. -/
theorem sync_shared_precedence :
    ∀ (sid oid : String) (remote : String → Option JSValue) (st : Store),
      handleUrlParameters (some sid) (some oid) remote st = processShared sid remote st ∧
      (∀ id, Effect.readLocalHtml id ∉ (handleUrlParameters (some sid) (some oid) remote st).2) ∧
      (∀ id, Effect.redirectToShared id ∉ (handleUrlParameters (some sid) (some oid) remote st).2) := by
  intro sid oid remote st
  exact ⟨rfl, fun id => processShared_no_readLocal sid id remote st,
    fun id => processShared_no_redirect sid id remote st⟩

theorem validConversationId_append_newline (id : String)
    (h : validIdCore id.data = true) :
    validConversationId (id ++ "\n") = true := by
  unfold validConversationId
  have hdata : (id ++ "\n").data = id.data ++ ['\n'] := by
    simp [String.data_append]
  rw [hdata]
  simp [List.getLast?_concat, List.dropLast_concat, h]

/-- C8.  Corrected form of the malformed-identity claim.  On the
server, the share endpoint rejects with 400, before any file is
created, every identity that fails its format check as PCRE evaluates
it, and no request carrying such an identity changes the stored files
under any method; but the PCRE dollar also matches before one final
line feed, so an identity of thirty-two to one hundred twenty-eight
alphanumerics followed by a single trailing line feed passes the check
and is accepted with 200, although it fails the claim's strict reading
of the pattern.  The client-side handler performs its fetch without
validating the token at all (see the counterexample). -/
theorem malformed_id_server_reject :
    (∀ (id : String), validConversationId id = false →
      (∀ (body : Option JSValue) (now : String) (fs : ShareFS),
        (sharePhp "POST" (some id) body now fs).1.status = 400 ∧
        (sharePhp "POST" (some id) body now fs).2 = fs) ∧
      (∀ (method : String) (body : Option JSValue) (now : String) (fs : ShareFS),
        (sharePhp method (some id) body now fs).2 = fs)) ∧
    (∀ (id : String), validIdCore id.data = true →
      validConversationId (id ++ "\n") = true) ∧
    (∀ (id : String) (body : JSValue) (now : String) (fs : ShareFS),
      validIdCore id.data = true →
      (sharePhp "POST" (some (id ++ "\n")) (some body) now fs).1.status = 200) := by
  refine ⟨?_, validConversationId_append_newline, ?_⟩
  · intro id hid
    constructor
    · intro body now fs
      constructor <;> simp [sharePhp, hid]
    · intro method body now fs
      by_cases hm : method = "POST"
      · subst hm
        simp [sharePhp, hid]
      · simp [sharePhp, hm]
  · intro id body now fs h
    have hv := validConversationId_append_newline id h
    simp [sharePhp, hv]

/-- C8 witness: the three-character identity fails the check and the
endpoint answers 400 without touching the file store, while the
sixty-four a's with a trailing line feed are accepted with 200. -/
theorem malformed_id_server_reject_witness :
    ((sharePhp "POST" (some "abc") (some (.obj [])) "t" ([] : ShareFS)).1.status = 400 ∧
     (sharePhp "POST" (some "abc") (some (.obj [])) "t" ([] : ShareFS)).2 = ([] : ShareFS)) ∧
    (sharePhp "POST" (some ("aaaaaaaaaaaaaaaaaaaaaaaaaaaaaaaaaaaaaaaaaaaaaaaaaaaaaaaaaaaaaaaa" ++ "\n"))
      (some (.obj [])) "t" ([] : ShareFS)).1.status = 200 :=
  ⟨(malformed_id_server_reject.1 "abc" (by decide)).1 (some (.obj [])) "t" ([] : ShareFS),
   malformed_id_server_reject.2.2 "aaaaaaaaaaaaaaaaaaaaaaaaaaaaaaaaaaaaaaaaaaaaaaaaaaaaaaaaaaaaaaaa"
     (.obj []) "t" ([] : ShareFS) (by decide)⟩

/-- C8 counterexample: the claim fails on both sides.  A malformed
shared token is not rejected before network access: the handler's trace
performs the fetch for the token abc, which fails the format check.
And the endpoint does not answer 400 for every token outside the strict
pattern: the sixty-four a's followed by a line feed fail the strict
format, yet the request is accepted with 200 and a file for that token
is created. -/
theorem malformed_id_counterexample :
    (validConversationId "abc" = false ∧
     Effect.fetchShared "abc" ∈
       (handleUrlParameters (some "abc") none (fun _ => none) ([] : Store)).2) ∧
    (validIdCore "aaaaaaaaaaaaaaaaaaaaaaaaaaaaaaaaaaaaaaaaaaaaaaaaaaaaaaaaaaaaaaaa\n".data = false ∧
     (sharePhp "POST" (some "aaaaaaaaaaaaaaaaaaaaaaaaaaaaaaaaaaaaaaaaaaaaaaaaaaaaaaaaaaaaaaaa\n")
       (some (.obj [])) "t" ([] : ShareFS)).1.status = 200 ∧
     (sharePhp "POST" (some "aaaaaaaaaaaaaaaaaaaaaaaaaaaaaaaaaaaaaaaaaaaaaaaaaaaaaaaaaaaaaaaa\n")
       (some (.obj [])) "t" ([] : ShareFS)).2 =
       [("shared/aaaaaaaaaaaaaaaaaaaaaaaaaaaaaaaaaaaaaaaaaaaaaaaaaaaaaaaaaaaaaaaa\n.json",
         .obj [("conversationId", .str "aaaaaaaaaaaaaaaaaaaaaaaaaaaaaaaaaaaaaaaaaaaaaaaaaaaaaaaaaaaaaaaa\n"),
               ("timestamp", .str "t"), ("data", .obj [])])]) := by
  refine ⟨⟨?_, ?_⟩, ?_, ?_, ?_⟩
  · decide
  · show Effect.fetchShared "abc" ∈ (processShared "abc" (fun _ => none) ([] : Store)).2
    simp [processShared]
  · decide
  · decide
  · rfl

/-- C9 counterexample: a PUT request with a well-formed identity and a
parsable body is answered with 405, not 200; the endpoint accepts only
POST. -/
theorem share_put_method_counterexample :
    validConversationId
      "aaaaaaaaaaaaaaaaaaaaaaaaaaaaaaaaaaaaaaaaaaaaaaaaaaaaaaaaaaaaaaaa" = true ∧
    (sharePhp "PUT"
      (some "aaaaaaaaaaaaaaaaaaaaaaaaaaaaaaaaaaaaaaaaaaaaaaaaaaaaaaaaaaaaaaaa")
      (some (.obj [])) "t" ([] : ShareFS)).1.status = 405 := by
  constructor
  · decide
  · rfl

/-- C9.  Corrected form of the method claim: a POST request with a
well-formed identity and a parsable JSON body succeeds with 200 and the
success payload carrying success, conversationId, shareUrl, timestamp
and isNew (new exactly when no file for the identity existed); every
request whose method is not POST, including PUT, is answered 405. -/
theorem share_method_amended :
    (∀ (id : String) (body : JSValue) (now : String) (fs : ShareFS),
      validConversationId id = true →
      sharePhp "POST" (some id) (some body) now fs =
        ({ status := 200,
           body := .obj
             [("success", .bool true), ("conversationId", .str id),
              ("shareUrl", .str ("/shared/" ++ id ++ ".json")),
              ("timestamp", .str now),
              ("isNew", .bool ((List.find?
                (fun p => p.1 = "shared/" ++ id ++ ".json") fs).isNone))] },
         ("shared/" ++ id ++ ".json",
            .obj [("conversationId", .str id), ("timestamp", .str now),
                  ("data", .obj (shareDataFields body))]) ::
           List.filter (fun p => p.1 ≠ "shared/" ++ id ++ ".json") fs)) ∧
    (∀ (method : String), method ≠ "POST" →
      ∀ (idParam : Option String) (body : Option JSValue) (now : String) (fs : ShareFS),
        (sharePhp method idParam body now fs).1.status = 405) := by
  constructor
  · intro id body now fs hid
    simp [sharePhp, hid]
  · intro method hm idParam body now fs
    simp [sharePhp, hm]

/-- C9 witness: a POST with a sixty-four character identity on the empty
file store succeeds with 200 and isNew true, and a GET is answered
405. -/
theorem share_method_amended_witness :
    (sharePhp "POST"
      (some "aaaaaaaaaaaaaaaaaaaaaaaaaaaaaaaaaaaaaaaaaaaaaaaaaaaaaaaaaaaaaaaa")
      (some (.obj [])) "t" ([] : ShareFS)).1.status = 200 ∧
    (sharePhp "GET"
      (some "aaaaaaaaaaaaaaaaaaaaaaaaaaaaaaaaaaaaaaaaaaaaaaaaaaaaaaaaaaaaaaaa")
      (some (.obj [])) "t" ([] : ShareFS)).1.status = 405 := by
  constructor
  · rw [share_method_amended.1
      "aaaaaaaaaaaaaaaaaaaaaaaaaaaaaaaaaaaaaaaaaaaaaaaaaaaaaaaaaaaaaaaa"
      (.obj []) "t" ([] : ShareFS) (by decide)]
  · exact share_method_amended.2 "GET" (by decide) _ _ _ _

/-- C2.  Hashing a bare one-element list, the wrapper object and the
keyed mapping of the same record produces the identical digest, for
every record and salt; in particular for the role-and-text record of
the claim with the empty salt. -/
theorem hashChat_shape_equivalence :
    (∀ (m : JSValue) (salt : String),
      hashChat (.arr [m]) salt = hashChat (.obj [("messages", .arr [m])]) salt ∧
      hashChat (.arr [m]) salt = hashChat (.obj [("0", m)]) salt) ∧
    (hashChat (.arr [.obj [("role", .str "user"), ("text", .str "Hi")]]) "" =
       hashChat (.obj [("messages",
         .arr [.obj [("role", .str "user"), ("text", .str "Hi")]])]) "" ∧
     hashChat (.arr [.obj [("role", .str "user"), ("text", .str "Hi")]]) "" =
       hashChat (.obj [("0", .obj [("role", .str "user"), ("text", .str "Hi")])]) "") :=
  ⟨fun _ _ => ⟨rfl, rfl⟩, rfl, rfl⟩

set_option maxRecDepth 100000 in
/-- C1 counterexample: at the empty-list input with the empty salt, the
digest the program returns is not the digest of the composite serialized
with a version key; the program serializes the version field under the
key v, so the canonical strings and hence the digests differ. -/
theorem hashChat_version_key_counterexample :
    hashChat (.arr []) "" ≠ sha256Hex ("" ++ "|" ++ canonicalizeChatClaimed (.arr [])) ∧
    canonicalizeChat (.arr []) = "\x7b\"v\":1,\"count\":0,\"messages\":[]\x7d" ∧
    canonicalizeChatClaimed (.arr []) =
      "\x7b\"version\":1,\"count\":0,\"messages\":[]\x7d" := by
  refine ⟨?_, rfl, rfl⟩
  decide

/-- C1.  Amended form: hashChat returns the lowercase hexadecimal
SHA-256 digest of the UTF-8 bytes of the salt, a vertical bar, and the
canonical form, where the canonical form is the stable-key-order JSON
serialization of the composite carrying the version field under the key
v (not version), the coerced list's length under count, and the coerced
message list under messages; consequently equal canonical forms with
equal salt give bit-identical output. -/
theorem hashChat_amended_spec :
    (∀ (input : JSValue) (salt : String),
      hashChat input salt = sha256Hex (salt ++ "|" ++ canonicalizeChat input)) ∧
    (∀ (input : JSValue),
      canonicalizeChat input =
        "\x7b\"v\":1,\"count\":" ++ toString (coerceToArray input).length ++
          ",\"messages\":[" ++
          String.intercalate "," ((coerceToArray input).map serializeMsg) ++ "]\x7d") ∧
    (∀ (i1 i2 : JSValue) (salt : String),
      canonicalizeChat i1 = canonicalizeChat i2 →
      hashChat i1 salt = hashChat i2 salt) := by
  refine ⟨fun _ _ => rfl, fun _ => rfl, ?_⟩
  intro i1 i2 salt h
  unfold hashChat
  rw [h]

/-- C1 witness: the empty array and the empty object have equal
canonical forms, and the amended determinism clause yields equal digests
for them. -/
theorem hashChat_amended_spec_witness :
    hashChat (.arr []) "s" = hashChat (.obj []) "s" :=
  hashChat_amended_spec.2.2 (.arr []) (.obj []) "s" rfl

theorem jsToString_jsOr_str_empty (s : String) :
    jsToString (jsOr (.str s) (.str "")) = s := by
  by_cases h : s = ""
  · simp [jsOr, truthy, h, jsToString]
  · simp [jsOr, truthy, h, jsToString]

theorem normalizeMessage_turnObj (t : Turn) :
    normalizeMessage (.obj [("msgId", .str t.msgId), ("type", .str t.type),
      ("content", .str t.content), ("rawHtml", .str t.rawHtml)]) =
      { type := jsTrim t.type, content := jsTrim (collapseWs t.content) } := by
  simp [normalizeMessage, jsGetOpt, List.find?, jsToString_jsOr_str_empty]

theorem coerce_turnsToJS (ts : List Turn) :
    coerceToArray (turnsToJS ts) =
      ts.map (fun t =>
        { type := jsTrim t.type, content := jsTrim (collapseWs t.content) }) := by
  simp [coerceToArray, turnsToJS, List.map_map, Function.comp, normalizeMessage_turnObj]

/-- C10.  The digest depends only on each turn's role and normalized
text: two extracted turn lists that agree pairwise on the type and
content fields hash identically under every salt, whatever their msgId
and rawHtml fields, because canonicalization projects every record to
its type and content fields before serialization. -/
theorem hashChat_projects_type_content :
    ∀ (ts1 ts2 : List Turn) (salt : String),
      List.Forall₂ (fun a b => a.type = b.type ∧ a.content = b.content) ts1 ts2 →
      hashChat (turnsToJS ts1) salt = hashChat (turnsToJS ts2) salt := by
  intro ts1 ts2 salt hf
  have hc : coerceToArray (turnsToJS ts1) = coerceToArray (turnsToJS ts2) := by
    rw [coerce_turnsToJS, coerce_turnsToJS]
    induction hf with
    | nil => rfl
    | cons h _ ih => simp only [List.map_cons, h.1, h.2, ih]
  unfold hashChat canonicalizeChat
  rw [hc]

/-- C10 witness: two one-turn lists sharing role and text but with
different message ids and different retained source fragments hash to
the same digest. -/
theorem hashChat_projects_type_content_witness :
    hashChat (turnsToJS
      [{ msgId := "idx-0", type := "user", content := "Hi",
         rawHtml := "<p>Hi</p>" }]) "" =
    hashChat (turnsToJS
      [{ msgId := "51a0", type := "user", content := "Hi", rawHtml := "" }]) "" :=
  hashChat_projects_type_content _ _ ""
    (List.Forall₂.cons ⟨rfl, rfl⟩ List.Forall₂.nil)

theorem collectTurnsGo_eq (nodes : List RoleEl) :
    ∀ idx, collectTurnsGo idx nodes =
      ((List.enumFrom idx nodes).filter
        (fun p => roleOf p.2 != "" && contentOf p.2 != "")).map
        (fun p => mkTurn p.1 p.2) := by
  induction nodes with
  | nil => intro idx; rfl
  | cons el rest ih =>
    intro idx
    simp only [collectTurnsGo, List.enumFrom, List.filter_cons]
    by_cases h : roleOf el ≠ "" ∧ contentOf el ≠ ""
    · have hb : (roleOf el != "" && contentOf el != "") = true := by
        simp [h.1, h.2]
      rw [if_pos h, hb]
      simp [ih (idx + 1)]
    · have hb : (roleOf el != "" && contentOf el != "") = false := by
        rcases not_and_or.mp h with h1 | h1
        · simp [not_not.mp h1]
        · simp [not_not.mp h1]
      rw [if_neg h, hb]
      simp only [Bool.false_eq_true, if_false]
      exact ih (idx + 1)

/-- C4.  The extracted turn list is exactly the filtered enumeration of
the role-marked nodes in document order: a node contributes the turn
built at its position precisely when its trimmed role and its normalized
content are both non-empty, and consequently every extracted turn has a
non-empty role and non-empty text. -/
theorem collectTurns_document_order :
    (∀ nodes : List RoleEl,
      collectTurns nodes =
        ((nodes.enum).filter
          (fun p => roleOf p.2 != "" && contentOf p.2 != "")).map
          (fun p => mkTurn p.1 p.2)) ∧
    (∀ (nodes : List RoleEl) (t : Turn), t ∈ collectTurns nodes →
      t.type ≠ "" ∧ t.content ≠ "") := by
  have hmain : ∀ nodes : List RoleEl,
      collectTurns nodes =
        ((nodes.enum).filter
          (fun p => roleOf p.2 != "" && contentOf p.2 != "")).map
          (fun p => mkTurn p.1 p.2) := by
    intro nodes
    exact collectTurnsGo_eq nodes 0
  refine ⟨hmain, ?_⟩
  intro nodes t hmem
  rw [hmain nodes] at hmem
  rcases List.mem_map.mp hmem with ⟨p, hp, rfl⟩
  rcases List.mem_filter.mp hp with ⟨-, hpred⟩
  simp only [Bool.and_eq_true, bne_iff_ne, ne_eq] at hpred
  exact ⟨hpred.1, hpred.2⟩

theorem scaled_le (m n : ℤ) (f : ℤ) (k : ℕ) :
    m * 10 ^ k ≤ n ↔ (m : ℚ) * (10 : ℚ) ^ (f + (k : ℤ)) ≤ (n : ℚ) * (10 : ℚ) ^ f := by
  have h10 : (10 : ℚ) ≠ 0 := by norm_num
  have hpos : (0 : ℚ) < (10 : ℚ) ^ f := zpow_pos (by norm_num) f
  rw [zpow_add₀ h10, zpow_natCast]
  constructor
  · intro h
    have h' : (m : ℚ) * (10 : ℚ) ^ k ≤ (n : ℚ) := by exact_mod_cast h
    calc (m : ℚ) * ((10 : ℚ) ^ f * (10 : ℚ) ^ k)
        = ((m : ℚ) * (10 : ℚ) ^ k) * (10 : ℚ) ^ f := by ring
      _ ≤ (n : ℚ) * (10 : ℚ) ^ f := mul_le_mul_of_nonneg_right h' hpos.le
  · intro h
    have h2 : ((m : ℚ) * (10 : ℚ) ^ k) * (10 : ℚ) ^ f ≤ (n : ℚ) * (10 : ℚ) ^ f := by
      calc ((m : ℚ) * (10 : ℚ) ^ k) * (10 : ℚ) ^ f
          = (m : ℚ) * ((10 : ℚ) ^ f * (10 : ℚ) ^ k) := by ring
        _ ≤ (n : ℚ) * (10 : ℚ) ^ f := h
    have h' : (m : ℚ) * (10 : ℚ) ^ k ≤ (n : ℚ) := le_of_mul_le_mul_right h2 hpos
    exact_mod_cast h'

theorem scaled_le' (m n : ℤ) (f : ℤ) (k : ℕ) :
    m ≤ n * 10 ^ k ↔ (m : ℚ) * (10 : ℚ) ^ f ≤ (n : ℚ) * (10 : ℚ) ^ (f + (k : ℤ)) := by
  have h10 : (10 : ℚ) ≠ 0 := by norm_num
  have hpos : (0 : ℚ) < (10 : ℚ) ^ f := zpow_pos (by norm_num) f
  rw [zpow_add₀ h10, zpow_natCast]
  constructor
  · intro h
    have h' : (m : ℚ) ≤ (n : ℚ) * (10 : ℚ) ^ k := by exact_mod_cast h
    calc (m : ℚ) * (10 : ℚ) ^ f
        ≤ ((n : ℚ) * (10 : ℚ) ^ k) * (10 : ℚ) ^ f := mul_le_mul_of_nonneg_right h' hpos.le
      _ = (n : ℚ) * ((10 : ℚ) ^ f * (10 : ℚ) ^ k) := by ring
  · intro h
    have h2 : (m : ℚ) * (10 : ℚ) ^ f ≤ ((n : ℚ) * (10 : ℚ) ^ k) * (10 : ℚ) ^ f := by
      calc (m : ℚ) * (10 : ℚ) ^ f
          ≤ (n : ℚ) * ((10 : ℚ) ^ f * (10 : ℚ) ^ k) := h
        _ = ((n : ℚ) * (10 : ℚ) ^ k) * (10 : ℚ) ^ f := by ring
    have h' : (m : ℚ) ≤ (n : ℚ) * (10 : ℚ) ^ k := le_of_mul_le_mul_right h2 hpos
    exact_mod_cast h'

theorem compareInt_le_iff (a b : ℤ) :
    ((if a < b then (-1 : Int) else if b < a then 1 else 0) ≤ 0) ↔ a ≤ b := by
  rcases lt_trichotomy a b with h | h | h
  · simp [h, le_of_lt h]
  · subst h
    simp [lt_irrefl]
  · simp [not_lt.mpr (le_of_lt h), h, not_le.mpr h]

theorem decCompare_le_iff (x y : DecNum) :
    decCompare x y ≤ 0 ↔ decValue x ≤ decValue y := by
  unfold decCompare
  by_cases hd : (0 : Int) ≤ x.exp - y.exp
  · simp only [hd, if_true]
    rw [compareInt_le_iff]
    have hx : x.exp = y.exp + (((x.exp - y.exp).toNat : ℤ)) := by
      rw [Int.toNat_of_nonneg hd]; ring
    unfold decValue
    rw [scaled_le x.mant y.mant y.exp ((x.exp - y.exp).toNat), ← hx]
  · simp only [hd, if_false]
    rw [compareInt_le_iff]
    have hd' : (0 : Int) ≤ -(x.exp - y.exp) := by omega
    have hy : y.exp = x.exp + (((-(x.exp - y.exp)).toNat : ℤ)) := by
      rw [Int.toNat_of_nonneg hd']; ring
    unfold decValue
    rw [scaled_le' x.mant y.mant x.exp ((-(x.exp - y.exp)).toNat), ← hy]

theorem wellBehaved_val (a : String) (ha : keyWellBehaved a = true)
    (hn : keyIsNumeric a = true) : ∃ d, jsStringToNum a = .val d := by
  unfold keyWellBehaved at ha
  rw [hn] at ha
  simp only [Bool.not_true, Bool.false_or] at ha
  rcases h : jsStringToNum a with _ | _ | _ | d
  · rw [h] at ha; cases ha
  · rw [h] at ha; cases ha
  · rw [h] at ha; cases ha
  · exact ⟨d, rfl⟩

theorem keyCompare_le_iff (a b : String)
    (ha : keyWellBehaved a = true) (hb : keyWellBehaved b = true) :
    keyCompare a b ≤ 0 ↔ amendedKeyOrder a b := by
  unfold keyCompare amendedKeyOrder
  by_cases hna : keyIsNumeric a
  · by_cases hnb : keyIsNumeric b
    · rcases wellBehaved_val a ha hna with ⟨da, hda⟩
      rcases wellBehaved_val b hb hnb with ⟨db, hdb⟩
      simp only [hna, hnb, and_self, if_true, hda, hdb, decOf, jsNumCompare]
      exact decCompare_le_iff da db
    · simp [hna, hnb]
  · by_cases hnb : keyIsNumeric b
    · simp [hna, hnb]
    · simp only [hna, hnb, false_and, Bool.false_eq_true, if_false, localeCompareModel]
      rcases lt_trichotomy a b with h | h | h
      · simp [h, le_of_lt h]
      · subst h
        simp [lt_irrefl]
      · simp [not_lt.mpr (le_of_lt h), h, not_le.mpr h]

theorem amendedKeyOrder_total (a b : String) :
    amendedKeyOrder a b ∨ amendedKeyOrder b a := by
  unfold amendedKeyOrder
  by_cases hna : keyIsNumeric a <;> by_cases hnb : keyIsNumeric b <;>
    simp [hna, hnb]
  · exact le_total _ _
  · exact le_total a.data b.data

theorem amendedKeyOrder_trans (a b c : String) :
    amendedKeyOrder a b → amendedKeyOrder b c → amendedKeyOrder a c := by
  intro h1 h2
  unfold amendedKeyOrder at *
  by_cases hna : keyIsNumeric a <;> by_cases hnb : keyIsNumeric b <;>
    by_cases hnc : keyIsNumeric c <;> simp_all
  · exact le_trans h1 h2
  · exact le_trans h1 h2

theorem stableInsert_perm (cmp : String → String → Int) (a : String) (l : List String) :
    List.Perm (stableInsert cmp a l) (a :: l) := by
  induction l with
  | nil => exact List.Perm.refl _
  | cons b l ih =>
    unfold stableInsert
    by_cases h : cmp b a ≤ 0
    · rw [if_pos h]
      exact List.Perm.trans (List.Perm.cons b ih) (List.Perm.swap a b l)
    · rw [if_neg h]

theorem foldl_stableInsert_perm (cmp : String → String → Int) :
    ∀ (l acc : List String),
      List.Perm (List.foldl (fun acc a => stableInsert cmp a acc) acc l) (l ++ acc) := by
  intro l
  induction l with
  | nil => intro acc; simp
  | cons a l ih =>
    intro acc
    have h1 := ih (stableInsert cmp a acc)
    have h2 : List.Perm (l ++ stableInsert cmp a acc) (l ++ a :: acc) :=
      List.Perm.append_left l (stableInsert_perm cmp a acc)
    have h3 : List.Perm (l ++ a :: acc) (a :: (l ++ acc)) := List.perm_middle
    simpa using List.Perm.trans h1 (List.Perm.trans h2 h3)

theorem jsSortWith_perm (cmp : String → String → Int) (l : List String) :
    List.Perm (jsSortWith cmp l) l := by
  simpa using foldl_stableInsert_perm cmp l []

theorem stableInsert_pairwise
    (P : String → Prop) (cmp : String → String → Int) (S : String → String → Prop)
    (hchar : ∀ x y, P x → P y → (cmp x y ≤ 0 ↔ S x y))
    (htotal : ∀ x y, S x y ∨ S y x)
    (htrans : ∀ x y z, S x y → S y z → S x z)
    (a : String) (ha : P a) :
    ∀ l, (∀ x ∈ l, P x) → l.Pairwise S → (stableInsert cmp a l).Pairwise S := by
  intro l
  induction l with
  | nil =>
    intro _ _
    simp [stableInsert]
  | cons b l ih =>
    intro hP hpw
    have hPb : P b := hP b (List.mem_cons_self b l)
    have hPl : ∀ x ∈ l, P x := fun x hx => hP x (List.mem_cons_of_mem b hx)
    rcases List.pairwise_cons.mp hpw with ⟨hb_all, hpl⟩
    unfold stableInsert
    by_cases hc : cmp b a ≤ 0
    · rw [if_pos hc]
      refine List.pairwise_cons.mpr ⟨?_, ih hPl hpl⟩
      intro x hx
      have hx' := (stableInsert_perm cmp a l).mem_iff.mp hx
      rcases List.mem_cons.mp hx' with rfl | hxl
      · exact (hchar b x hPb ha).mp hc
      · exact hb_all x hxl
    · rw [if_neg hc]
      have hSab : S a b := by
        rcases htotal a b with h | h
        · exact h
        · exact absurd ((hchar b a hPb ha).mpr h) hc
      refine List.pairwise_cons.mpr ⟨?_, hpw⟩
      intro x hx
      rcases List.mem_cons.mp hx with rfl | hxl
      · exact hSab
      · exact htrans a b x hSab (hb_all x hxl)

theorem foldl_stableInsert_pairwise
    (P : String → Prop) (cmp : String → String → Int) (S : String → String → Prop)
    (hchar : ∀ x y, P x → P y → (cmp x y ≤ 0 ↔ S x y))
    (htotal : ∀ x y, S x y ∨ S y x)
    (htrans : ∀ x y z, S x y → S y z → S x z) :
    ∀ (l acc : List String), (∀ x ∈ l, P x) → (∀ x ∈ acc, P x) → acc.Pairwise S →
      (List.foldl (fun acc a => stableInsert cmp a acc) acc l).Pairwise S := by
  intro l
  induction l with
  | nil => intro acc _ _ h; exact h
  | cons a l ih =>
    intro acc hPl hPacc hacc
    have hPa : P a := hPl a (List.mem_cons_self a l)
    have hPl' : ∀ x ∈ l, P x := fun x hx => hPl x (List.mem_cons_of_mem a hx)
    have hPacc' : ∀ x ∈ stableInsert cmp a acc, P x := by
      intro x hx
      rcases List.mem_cons.mp ((stableInsert_perm cmp a acc).mem_iff.mp hx) with rfl | hxm
      · exact hPa
      · exact hPacc x hxm
    exact ih (stableInsert cmp a acc) hPl' hPacc'
      (stableInsert_pairwise P cmp S hchar htotal htrans a hPa acc hPacc hacc)

theorem jsSortWith_pairwise
    (P : String → Prop) (cmp : String → String → Int) (S : String → String → Prop)
    (hchar : ∀ x y, P x → P y → (cmp x y ≤ 0 ↔ S x y))
    (htotal : ∀ x y, S x y ∨ S y x)
    (htrans : ∀ x y z, S x y → S y z → S x z)
    (l : List String) (hP : ∀ x ∈ l, P x) :
    (jsSortWith cmp l).Pairwise S :=
  foldl_stableInsert_pairwise P cmp S hchar htotal htrans l [] hP
    (by intro x hx; cases hx) List.Pairwise.nil

set_option maxRecDepth 100000 in
/-- C3 counterexample: on the mapping with keys 12 and 1.5 the program
orders the 1.5 record first, because 1.5 survives the number round trip
and 1.5 is numerically below 12; the claim's integer-based ordering
(integer keys first, the rest lexicographic) predicts the opposite
order, so the claim is false at this input. -/
theorem coerce_key_order_counterexample :
    coerceToArray (.obj
      [("12", .obj [("type", .str "user"), ("content", .str "A")]),
       ("1.5", .obj [("type", .str "user"), ("content", .str "B")])]) =
      [{ type := "user", content := "B" }, { type := "user", content := "A" }] ∧
    jsSortWith claimKeyCompare ["12", "1.5"] = ["12", "1.5"] ∧
    claimIntKey "12" = some 12 ∧ claimIntKey "1.5" = none ∧
    ({ type := "user", content := "B" } : NormMsg) ≠
      { type := "user", content := "A" } := by
  refine ⟨?_, ?_, ?_, ?_, ?_⟩ <;> decide

set_option maxRecDepth 100000 in
/-- C3.  Amended form: the numeric key class is the JavaScript number
round trip, not the base-10 integers: it also contains negative and
fractional canonical numerals such as 1.5.  For every key list whose
members are well behaved (no NaN or infinity keys), the sorted key
order the Canonicalizer uses is a permutation of the keys in which
numeric keys order by numeric value and precede every non-numeric key
while non-numeric keys order lexicographically; the keyed-dictionary
branch of coerceToArray maps exactly that sorted key list; and the
claim's concrete example orders as it states. -/
theorem coerce_key_order_amended :
    (∀ (keys : List String), (∀ k ∈ keys, keyWellBehaved k = true) →
      (jsSortWith keyCompare keys).Pairwise amendedKeyOrder ∧
      List.Perm (jsSortWith keyCompare keys) keys) ∧
    (∀ (fields : List (String × JSValue)),
      (∀ l, jsGetOpt (.obj fields) "messages" ≠ .arr l) →
      jsHasKey fields "type" = false → jsHasKey fields "content" = false →
      coerceToArray (.obj fields) =
        (jsSortWith keyCompare (fields.map Prod.fst)).map
          (fun k => normalizeMessage (jsGetOpt (.obj fields) k))) ∧
    coerceToArray (.obj
      [("10", .obj [("type", .str "user"), ("content", .str "A")]),
       ("2", .obj [("type", .str "user"), ("content", .str "B")]),
       ("x", .obj [("type", .str "user"), ("content", .str "C")])]) =
      [{ type := "user", content := "B" }, { type := "user", content := "A" },
       { type := "user", content := "C" }] := by
  refine ⟨?_, ?_, ?_⟩
  · intro keys hP
    refine ⟨?_, jsSortWith_perm keyCompare keys⟩
    exact jsSortWith_pairwise (fun s => keyWellBehaved s = true) keyCompare
      amendedKeyOrder keyCompare_le_iff amendedKeyOrder_total amendedKeyOrder_trans
      keys hP
  · intro fields hm ht hc
    simp only [coerceToArray]
    rcases hval : jsGetOpt (JSValue.obj fields) "messages" with _ | _ | b | n | s | l | fs
    · simp [ht, hc]
    · simp [ht, hc]
    · simp [ht, hc]
    · simp [ht, hc]
    · simp [ht, hc]
    · exact absurd hval (hm l)
    · simp [ht, hc]
  · decide

set_option maxRecDepth 100000 in
/-- C3 witness: the amended ordering statement at the claim's example
keys. -/
theorem coerce_key_order_amended_witness :
    (jsSortWith keyCompare ["10", "2", "x"]).Pairwise amendedKeyOrder ∧
    List.Perm (jsSortWith keyCompare ["10", "2", "x"]) ["10", "2", "x"] :=
  coerce_key_order_amended.1 ["10", "2", "x"] (by decide)
